import Mathlib

/-!
Verification of the tic-tac-toe engine in `tictactoe.py` (with the
constructor of `play.py` modelled separately where a claim targets it).

Conventions of the embedding:
* Python lists of one-character strings become `List String`; an empty cell
  is the string " " exactly as in the source.
* Python list indexing (which accepts negative indices and wraps them by the
  list length, raising IndexError outside `[-len, len)`) is modelled by
  `pyIdx` / `pyGetD` / `pySet`.
* Methods that can raise become `Except String` values; the carried string
  tags the Python exception type (ValueError, IndexError, MoveException).
  A raising call returns no successor state, because the source raises
  before any mutation.
* The sqlite memoisation cache (`get_score_from_db` / `set_score_in_db`) is
  modelled as absent (every lookup misses), matching the specification's
  scoping: the cache is an external collaborator and the core must work
  with no cache present; with every lookup a miss, `minimax` always takes
  the recomputation branch of the source.
* `minimax` recurses on boards with strictly fewer empty cells; the
  embedding makes termination syntactic with a fuel argument, and every
  call site passes fuel exceeding the cell count, which the recursion can
  never exhaust.
-/

/-- Python-style index normalisation for a list of length `len`:
nonnegative indices must be `< len`, negative indices `i` with
`-len ≤ i` address cell `len + i`, anything else is out of range. -/
def pyIdx (i : Int) (len : Nat) : Option Nat :=
  if 0 ≤ i then (if i < (len : Int) then some i.toNat else none)
  else (if -(len : Int) ≤ i then some ((len : Int) + i).toNat else none)

/-- Python `l[i]` with a default for the (unreachable when guarded)
out-of-range case. -/
def pyGetD {α : Type} (l : List α) (i : Int) (d : α) : α :=
  match pyIdx i l.length with
  | some n => l.getD n d
  | none => d

/-- Python `l[i] = v`; out of range leaves the list unchanged (the callers
in the source only reach it after a successful read at the same index). -/
def pySet {α : Type} (l : List α) (i : Int) (v : α) : List α :=
  match pyIdx i l.length with
  | some n => l.set n v
  | none => l

/-- `Player` of tictactoe.py: symbol, minimax score and AI flag. -/
structure Player where
  symbol : String
  minimax_score : Int
  is_ai : Bool
deriving DecidableEq, Repr

/-- Placeholder player for (unreachable) out-of-range list accesses. -/
def noPlayer : Player := { symbol := "", minimax_score := 0, is_ai := false }

/-- Player 1 of `Game.__init__`: symbol "X", minimax_score -1. -/
def playerX : Player := { symbol := "X", minimax_score := -1, is_ai := false }

/-- Player 2 of `Game.__init__`: symbol "O", minimax_score 1; the AI player
when playing against the computer (the flag is never read by any of the
operations modelled here). -/
def playerO : Player := { symbol := "O", minimax_score := 1, is_ai := true }

/-- The state stored by `Game` of tictactoe.py (the fields the modelled
methods read and write; `winning_patterns` is recomputed by
`is_winning_move` from `size` at every use in the source, and `winner`,
`game_id`, `against_ai` are never read by the modelled methods). -/
structure Game where
  size : Nat
  players : List Player
  game_array : List String
  num_players : Nat
  turn : Int
deriving DecidableEq, Repr

/-- `create_winning_patterns(size)`: for each `i` the row pattern then the
column pattern, then the main diagonal, then the anti-diagonal formula
`i * (size - 1) + (size - 1)`. -/
def create_winning_patterns (size : Nat) : List (List Nat) :=
  ((List.range size).flatMap (fun i =>
    [(List.range size).map (fun j => j + i * size),
     (List.range size).map (fun j => i + j * size)]))
  ++ [(List.range size).map (fun i => i * size + i)]
  ++ [(List.range size).map (fun i => i * (size - 1) + (size - 1))]

/-- `is_winning_move(size, game_array, symbol)`: some winning pattern has
every cell equal to `symbol`. -/
def is_winning_move (size : Nat) (game_array : List String) (symbol : String) : Bool :=
  (create_winning_patterns size).any
    (fun pattern => pattern.all (fun pos => game_array.getD pos "" == symbol))

/-- `get_empty_indices(array)`: indices of cells equal to " ", in ascending
order (Python `enumerate`). -/
def get_empty_indices (array : List String) : List Nat :=
  ((array.enum.filter (fun p => p.snd == " ")).map (fun p => p.fst))

/-- `minimax(game_array, players, size, is_maximizer)` of tictactoe.py with
the score cache absent (every database lookup misses, so the source always
recomputes recursively).  The `place / recurse / undo` loop of the source
becomes a fold in which each branch evaluates the recursion on
`game_array.set idx symbol`; since the iterated indices are empty cells of
the unchanged `game_array`, the undo step of the source restores exactly
that array between iterations. -/
def minimax : Nat → List String → List Player → Nat → Bool → Int
  | 0, _, _, _, _ => 0
  | fuel+1, game_array, players, size, is_maximizer =>
    let p0 := players.getD 0 noPlayer
    let p1 := players.getD 1 noPlayer
    if is_winning_move size game_array p0.symbol then p0.minimax_score
    else if is_winning_move size game_array p1.symbol then p1.minimax_score
    else if get_empty_indices game_array = [] then 0
    else if is_maximizer then
      (get_empty_indices game_array).foldl
        (fun best_score idx =>
          max (minimax fuel (game_array.set idx p1.symbol) players size false) best_score)
        (-9999)
    else
      (get_empty_indices game_array).foldl
        (fun best_score idx =>
          min (minimax fuel (game_array.set idx p0.symbol) players size true) best_score)
        9999

/-- `Game.current_player`: `players[(turn % num_players) - 1]`, with
Python's negative indexing (turn parity 0 gives index -1, the last
player). -/
def current_player (g : Game) : Player :=
  pyGetD g.players ((g.turn % (g.num_players : Int)) - 1) noPlayer

/-- `Game.is_position_taken(position)`: raises ValueError when
`position >= len(game_array)`; otherwise reads `game_array[position]` with
Python indexing (negative positions wrap; below `-len` Python raises
IndexError). -/
def is_position_taken (g : Game) (position : Int) : Except String Bool :=
  if (g.game_array.length : Int) ≤ position then Except.error "ValueError"
  else
    match pyIdx position g.game_array.length with
    | some n => Except.ok (g.game_array.getD n "" != " ")
    | none => Except.error "IndexError"

/-- `Game.get_winner`: if any player's symbol has a winning pattern, the
source returns `self.current_player` (not the player found by the loop);
otherwise None. -/
def get_winner (g : Game) : Option Player :=
  if g.players.any (fun player => is_winning_move g.size g.game_array player.symbol)
  then some (current_player g)
  else none

/-- `Game.is_array_full`: every cell differs from " ". -/
def is_array_full (g : Game) : Bool :=
  g.game_array.all (fun pos => pos != " ")

/-- `Game.is_end_of_game`: winning pattern for the CURRENT player's symbol,
or full board. -/
def is_end_of_game (g : Game) : Bool :=
  is_winning_move g.size g.game_array (current_player g).symbol || is_array_full g

/-- `Game.clear_spot(position)`: blanks the cell and unconditionally
decrements the turn counter. -/
def clear_spot (g : Game) (position : Int) : Game :=
  { g with game_array := pySet g.game_array position " ", turn := g.turn - 1 }

/-- `Game.make_move(position)`: raises (via `is_position_taken`, or a
MoveException when the cell is occupied) before any mutation; otherwise
writes the current player's symbol, then increments the turn counter only
when the move did not end the game, returning whether the game ended. -/
def make_move (g : Game) (position : Int) : Except String (Bool × Game) :=
  match is_position_taken g position with
  | Except.error e => Except.error e
  | Except.ok true => Except.error "MoveException: Position already taken"
  | Except.ok false =>
    if is_end_of_game { g with game_array := pySet g.game_array position (current_player g).symbol }
    then Except.ok (true, { g with game_array := pySet g.game_array position (current_player g).symbol })
    else Except.ok (false,
      { g with game_array := pySet g.game_array position (current_player g).symbol,
               turn := g.turn + 1 })

/-- The loop of `Game.best_move`, threading the deep-copied game through
`make_move` / `clear_spot` exactly as the source does (in particular
`clear_spot` decrements the copy's turn counter even when the trial move
ended the game and `make_move` had not incremented it).  An exception from
`make_move` would abort the whole call (unreachable: the iterated cells
are empty in the copy at each iteration). -/
def best_move_loop : Game → List Nat → Option Int → Int → Option Int
  | _, [], move, _ => move
  | gc, idx :: rest, move, best_score =>
    match make_move gc (idx : Int) with
    | Except.error _ => none
    | Except.ok (_, gc1) =>
      let score := minimax (gc1.game_array.length + 1) gc1.game_array gc1.players gc1.size false
      let gc2 := clear_spot gc1 (idx : Int)
      if best_score < score then best_move_loop gc2 rest (some (idx : Int)) score
      else best_move_loop gc2 rest move best_score

/-- `Game.best_move`: iterates the empty indices of the board in ascending
order on a deep copy of the game, keeping the first index whose score is
strictly greater than every score seen before. -/
def best_move (g : Game) : Option Int :=
  best_move_loop g (get_empty_indices g.game_array) none (-9999)

/-- `Game.best_move` viewed as a call on a caller-owned game: the source
deep-copies `self` into `game_copy` and mutates only the copy, so the
caller's game after the call is the unchanged `g`. -/
def best_move_run (g : Game) : Option Int × Game :=
  (best_move g, g)

/-- A freshly constructed `Game` of tictactoe.py: a 3x3 board of blanks,
players X then O, turn counter 1.  (The source's `__init__` hardcodes
`self.size = 3`; its stray reads of a bare `size` name can only denote
that intended value.) -/
def init_game : Game :=
  { size := 3
    players := [playerX, playerO]
    game_array := List.replicate 9 " "
    num_players := 2
    turn := 1 }

/-- Number of occupied (non-blank) cells of the board. -/
def occupied_count (g : Game) : Nat :=
  (g.game_array.filter (fun c => c != " ")).length

/-- Board states reachable from a freshly constructed game by accepted
(non-raising) `make_move` calls. -/
inductive Reachable : Game → Prop where
  | init : Reachable init_game
  | step (g : Game) (pos : Int) (b : Bool) (g' : Game) :
      Reachable g → make_move g pos = Except.ok (b, g') → Reachable g'

/-- `Player` of play.py: a display name and a symbol. -/
structure PlayPlayer where
  name : String
  symbol : String
deriving DecidableEq, Repr

/-- The state stored by `Game` of play.py. -/
structure PlayGame where
  size : Nat
  turn : Int
  num_players : Nat
  game_array : List String
  winning_patterns : List (List Nat)
  players : List PlayPlayer
deriving DecidableEq, Repr

/-- `Game.__init__(size, num_players)` of play.py: size² blank cells,
turn 1, two fixed players (the `num_players` argument is ignored and the
field set to 2); no validation of `size` of any kind. -/
def play_Game_init (size : Nat) (num_players : Nat) : PlayGame :=
  { size := size
    turn := 1
    num_players := 2
    game_array := List.replicate (size ^ 2) " "
    winning_patterns := create_winning_patterns size
    players := [{ name := "Player 1", symbol := "O" }, { name := "Player 2", symbol := "X" }] }

/-- The board of the specification's `best_move` example,
`[O,O,_, _,X,_, X,_,_]`, with an even turn counter so that O (player 2)
is the current player. -/
def exampleBoardO : Game :=
  { size := 3
    players := [playerX, playerO]
    game_array := ["O", "O", " ", " ", "X", " ", "X", " ", " "]
    num_players := 2
    turn := 4 }

/-- A board with O to move (even turn) where O has two immediate winning
cells, 7 (column 1, 4, 7) and 8 (diagonal 0, 4, 8), while the earlier
empty cell 5 is not an immediate win but keeps both threats alive. -/
def doubleThreatBoard : Game :=
  { size := 3
    players := [playerX, playerO]
    game_array := ["O", "O", "X", "X", "O", " ", " ", " ", " "]
    num_players := 2
    turn := 6 }

/-- A board on which X has a completed row but the turn counter makes O the
current player (such a pair is constructible by a caller writing the fields
directly; `make_move` never produces it because a winning move leaves the
turn counter unchanged). -/
def staleTurnBoard : Game :=
  { size := 3
    players := [playerX, playerO]
    game_array := ["X", "X", "X", "O", "O", " ", " ", " ", " "]
    num_players := 2
    turn := 2 }



def cur_sym (turn : Int) : String := if turn % 2 = 1 then "X" else "O"

def opp_sym (turn : Int) : String := if turn % 2 = 1 then "O" else "X"

def GameInv (g : Game) : Prop :=
  g.size = 3 ∧ g.players = [playerX, playerO] ∧ g.num_players = 2 ∧
  g.game_array.length = 9 ∧ 1 ≤ g.turn ∧
  (is_end_of_game g = false → (occupied_count g : Int) = g.turn - 1) ∧
  ¬(is_winning_move g.size g.game_array (cur_sym g.turn) = true ∧
    is_winning_move g.size g.game_array (opp_sym g.turn) = true) ∧
  ((is_winning_move g.size g.game_array (cur_sym g.turn) = true ∨
    is_winning_move g.size g.game_array (opp_sym g.turn) = true) →
    is_winning_move g.size g.game_array (cur_sym g.turn) = true)

def winSequenceEnd : Game :=
  { size := 3
    players := [playerX, playerO]
    game_array := ["X", "X", "X", " ", "O", "O", " ", " ", " "]
    num_players := 2
    turn := 5 }

def occupiedBoard : Game :=
  { size := 3
    players := [playerX, playerO]
    game_array := ["X", " ", " ", " ", " ", " ", " ", " ", " "]
    num_players := 2
    turn := 2 }

/-- Decidable equality for `Except` values, for evaluating the embedded
operations on concrete inputs. -/
instance exceptDecEq {e a : Type} [DecidableEq e] [DecidableEq a] :
    DecidableEq (Except e a) := fun x y =>
  match x, y with
  | Except.ok v, Except.ok w =>
    if h : v = w then isTrue (by rw [h]) else isFalse (fun hc => by cases hc; exact h rfl)
  | Except.error v, Except.error w =>
    if h : v = w then isTrue (by rw [h]) else isFalse (fun hc => by cases hc; exact h rfl)
  | Except.ok _, Except.error _ => isFalse (fun hc => by cases hc)
  | Except.error _, Except.ok _ => isFalse (fun hc => by cases hc)

theorem length_flatMap_two (size : Nat) (f g : Nat → List Nat) :
    ((List.range size).flatMap (fun i => [f i, g i])).length = 2 * size := by
  induction size with
  | zero => rfl
  | succ n ih =>
    rw [List.range_succ, List.flatMap_append, List.length_append, ih]
    simp [Nat.mul_succ]

theorem create_winning_patterns_length (size : Nat) :
    (create_winning_patterns size).length = 2 * size + 2 := by
  unfold create_winning_patterns
  rw [List.append_assoc, List.length_append, length_flatMap_two]
  rfl

theorem mem_create_winning_patterns {size : Nat} {p : List Nat}
    (hp : p ∈ create_winning_patterns size) :
    (∃ i < size, p = (List.range size).map (fun j => j + i * size)) ∨
    (∃ i < size, p = (List.range size).map (fun j => i + j * size)) ∨
    p = (List.range size).map (fun i => i * size + i) ∨
    p = (List.range size).map (fun i => i * (size - 1) + (size - 1)) := by
  unfold create_winning_patterns at hp
  rw [List.append_assoc, List.mem_append] at hp
  rcases hp with h | h
  · rw [List.mem_flatMap] at h
    obtain ⟨i, hi, hmem⟩ := h
    rw [List.mem_range] at hi
    rw [List.mem_cons, List.mem_singleton] at hmem
    rcases hmem with h1 | h1
    · exact Or.inl ⟨i, hi, h1⟩
    · exact Or.inr (Or.inl ⟨i, hi, h1⟩)
  · rw [List.cons_append, List.mem_cons, List.nil_append, List.mem_singleton] at h
    rcases h with h1 | h1
    · exact Or.inr (Or.inr (Or.inl h1))
    · exact Or.inr (Or.inr (Or.inr h1))

theorem pattern_props {size : Nat} (h2 : 2 ≤ size) (p : List Nat)
    (hp : p ∈ create_winning_patterns size) :
    p.length = size ∧ p.Nodup ∧ ∀ x ∈ p, x < size ^ 2 := by
  have hmul : ∀ a b : Nat, b < size → a < size → b + a * size < size ^ 2 := by
    intro a b hb ha
    have h1 : b + a * size < (a + 1) * size := by
      rw [Nat.succ_mul]; omega
    have h2 : (a + 1) * size ≤ size * size := Nat.mul_le_mul_right size (by omega)
    rw [pow_two]; omega
  rcases mem_create_winning_patterns hp with ⟨i, hi, rfl⟩ | ⟨i, hi, rfl⟩ | rfl | rfl
  · refine ⟨by simp, List.Nodup.map (fun a b hab => by omega) (List.nodup_range size), ?_⟩
    intro x hx
    obtain ⟨j, hj, rfl⟩ := List.mem_map.mp hx
    rw [List.mem_range] at hj
    exact hmul i j hj hi
  · refine ⟨by simp, List.Nodup.map ?_ (List.nodup_range size), ?_⟩
    · intro a b hab
      simp only [] at hab
      have := Nat.add_left_cancel hab
      exact Nat.eq_of_mul_eq_mul_right (by omega) this
    · intro x hx
      obtain ⟨j, hj, rfl⟩ := List.mem_map.mp hx
      rw [List.mem_range] at hj
      have h1 : i + j * size < (j + 1) * size := by rw [Nat.succ_mul]; omega
      have h2 : (j + 1) * size ≤ size * size := Nat.mul_le_mul_right size (by omega)
      rw [pow_two]; omega
  · refine ⟨by simp, List.Nodup.map ?_ (List.nodup_range size), ?_⟩
    · intro a b hab
      simp only [] at hab
      have h1 : a * (size + 1) = b * (size + 1) := by
        rw [Nat.mul_succ, Nat.mul_succ]; omega
      exact Nat.eq_of_mul_eq_mul_right (by omega) h1
    · intro x hx
      obtain ⟨j, hj, rfl⟩ := List.mem_map.mp hx
      rw [List.mem_range] at hj
      have h1 : j * size + j < (j + 1) * size := by rw [Nat.succ_mul]; omega
      have h2 : (j + 1) * size ≤ size * size := Nat.mul_le_mul_right size (by omega)
      rw [pow_two]; omega
  · refine ⟨by simp, List.Nodup.map ?_ (List.nodup_range size), ?_⟩
    · intro a b hab
      simp only [] at hab
      have h1 : a * (size - 1) = b * (size - 1) := by omega
      exact Nat.eq_of_mul_eq_mul_right (by omega) h1
    · intro x hx
      obtain ⟨j, hj, rfl⟩ := List.mem_map.mp hx
      rw [List.mem_range] at hj
      have h1 : j * (size - 1) + (size - 1) = (j + 1) * (size - 1) := by
        rw [Nat.succ_mul]
      have h2 : (j + 1) * (size - 1) ≤ size * (size - 1) := Nat.mul_le_mul_right _ (by omega)
      have hs : size - 1 + 1 = size := by omega
      have h3 : size * size = size * (size - 1) + size := by
        conv_lhs => rw [← hs, Nat.mul_succ]
        rw [hs]
      rw [pow_two]; omega

theorem getD_set_self {α : Type} (arr : List α) (n : Nat) (v d : α) (h : n < arr.length) :
    (arr.set n v).getD n d = v := by
  induction arr generalizing n with
  | nil => simp at h
  | cons a as ih =>
    cases n with
    | zero => rfl
    | succ m => simpa using ih m (by simpa using h)

theorem getD_set_ne {α : Type} (arr : List α) (n m : Nat) (v d : α) (h : n ≠ m) :
    (arr.set n v).getD m d = arr.getD m d := by
  induction arr generalizing n m with
  | nil => rfl
  | cons a as ih =>
    cases n with
    | zero => cases m with
      | zero => exact absurd rfl h
      | succ k => rfl
    | succ n' => cases m with
      | zero => rfl
      | succ k => simpa using ih n' k (by omega)

theorem any_ext {α : Type} (l : List α) (f g : α → Bool) (h : ∀ x ∈ l, f x = g x) :
    l.any f = l.any g := by
  induction l with
  | nil => rfl
  | cons a as ih =>
    simp only [List.any_cons]
    rw [h a (by simp), ih (fun x hx => h x (by simp [hx]))]

theorem all_ext {α : Type} (l : List α) (f g : α → Bool) (h : ∀ x ∈ l, f x = g x) :
    l.all f = l.all g := by
  induction l with
  | nil => rfl
  | cons a as ih =>
    simp only [List.all_cons]
    rw [h a (by simp), ih (fun x hx => h x (by simp [hx]))]

theorem all_set_other {arr : List String} {n : Nat} {c s : String}
    (hn : n < arr.length) (he : arr.getD n "" = " ") (hs : s ≠ " ") (hcs : c ≠ s)
    (p : List Nat) :
    (p.all (fun pos => (arr.set n c).getD pos "" == s)) =
      (p.all (fun pos => arr.getD pos "" == s)) := by
  by_cases hmem : n ∈ p
  · have hl : (p.all (fun pos => (arr.set n c).getD pos "" == s)) = false := by
      rw [List.all_eq_false]
      exact ⟨n, hmem, by rw [getD_set_self arr n c "" hn]; simpa using hcs⟩
    have hr : (p.all (fun pos => arr.getD pos "" == s)) = false := by
      rw [List.all_eq_false]
      exact ⟨n, hmem, by rw [he]; simpa using fun h => hs h.symm⟩
    rw [hl, hr]
  · apply all_ext
    intro pos hpos
    have hne : n ≠ pos := fun e => hmem (e ▸ hpos)
    rw [getD_set_ne arr n pos c "" hne]

theorem is_winning_move_set_other {size : Nat} {arr : List String} {n : Nat} {c s : String}
    (hn : n < arr.length) (he : arr.getD n "" = " ") (hs : s ≠ " ") (hcs : c ≠ s) :
    is_winning_move size (arr.set n c) s = is_winning_move size arr s := by
  unfold is_winning_move
  exact any_ext _ _ _ (fun p _ => all_set_other hn he hs hcs p)

theorem is_winning_move_set_of_win {size : Nat} {arr : List String} {n : Nat} {v s : String}
    (he : arr.getD n "" = " ") (hs : s ≠ " ")
    (hw : is_winning_move size arr s = true) :
    is_winning_move size (arr.set n v) s = true := by
  unfold is_winning_move at hw ⊢
  rw [List.any_eq_true] at hw ⊢
  obtain ⟨p, hp, hall⟩ := hw
  refine ⟨p, hp, ?_⟩
  rw [List.all_eq_true] at hall ⊢
  intro pos hpos
  have hne : n ≠ pos := by
    intro e
    subst e
    have hcell := hall n hpos
    rw [he] at hcell
    simp only [beq_iff_eq] at hcell
    exact hs hcell.symm
  rw [getD_set_ne arr n pos v "" hne]
  exact hall pos hpos

theorem pyIdx_some_lt {pos : Int} {len n : Nat} (h : pyIdx pos len = some n) : n < len := by
  unfold pyIdx at h
  by_cases h1 : (0 : Int) ≤ pos
  · rw [if_pos h1] at h
    by_cases h2 : pos < (len : Int)
    · rw [if_pos h2, Option.some.injEq] at h
      omega
    · rw [if_neg h2] at h
      exact Option.noConfusion h
  · rw [if_neg h1] at h
    by_cases h3 : -(len : Int) ≤ pos
    · rw [if_pos h3, Option.some.injEq] at h
      omega
    · rw [if_neg h3] at h
      exact Option.noConfusion h

theorem is_position_taken_ok_false {g : Game} {pos : Int}
    (h : is_position_taken g pos = Except.ok false) :
    ∃ n, pyIdx pos g.game_array.length = some n ∧ n < g.game_array.length ∧
      g.game_array.getD n "" = " " := by
  unfold is_position_taken at h
  by_cases h1 : ((g.game_array.length : Int) ≤ pos)
  · rw [if_pos h1] at h
    exact Except.noConfusion h
  · rw [if_neg h1] at h
    cases h2 : pyIdx pos g.game_array.length with
    | none => rw [h2] at h; exact Except.noConfusion h
    | some n =>
      rw [h2] at h
      refine ⟨n, rfl, pyIdx_some_lt h2, ?_⟩
      injection h with h3
      simpa using h3

theorem make_move_ok {g : Game} {pos : Int} {b : Bool} {g' : Game}
    (h : make_move g pos = Except.ok (b, g')) :
    ∃ n, pyIdx pos g.game_array.length = some n ∧ n < g.game_array.length ∧
      g.game_array.getD n "" = " " ∧
      ((is_end_of_game { g with game_array := g.game_array.set n (current_player g).symbol } = true ∧
        b = true ∧
        g' = { g with game_array := g.game_array.set n (current_player g).symbol }) ∨
       (is_end_of_game { g with game_array := g.game_array.set n (current_player g).symbol } = false ∧
        b = false ∧
        g' = { g with game_array := g.game_array.set n (current_player g).symbol,
                      turn := g.turn + 1 })) := by
  unfold make_move at h
  cases htaken : is_position_taken g pos with
  | error e => rw [htaken] at h; cases h
  | ok t =>
    rw [htaken] at h
    cases t with
    | true => cases h
    | false =>
      obtain ⟨n, hidx, hlt, hemp⟩ := is_position_taken_ok_false htaken
      have hset : pySet g.game_array pos (current_player g).symbol
          = g.game_array.set n (current_player g).symbol := by
        unfold pySet
        rw [hidx]
      rw [hset] at h
      refine ⟨n, hidx, hlt, hemp, ?_⟩
      split_ifs at h with hend
      · simp only [Except.ok.injEq, Prod.mk.injEq] at h
        exact Or.inl ⟨hend, h.1.symm, h.2.symm⟩
      · simp only [Except.ok.injEq, Prod.mk.injEq] at h
        exact Or.inr ⟨by simpa using hend, h.1.symm, h.2.symm⟩

theorem current_player_eq {g : Game} (hp : g.players = [playerX, playerO])
    (hn : g.num_players = 2) :
    current_player g = if g.turn % 2 = 1 then playerX else playerO := by
  unfold current_player pyGetD
  rw [hp, hn]
  have h0 : (0 : Int) ≤ g.turn % 2 := Int.emod_nonneg _ (by norm_num)
  have h1 : g.turn % 2 < 2 := Int.emod_lt_of_pos _ (by norm_num)
  by_cases h : g.turn % 2 = 1
  · have h2 : g.turn % ((2 : Nat) : Int) - 1 = 0 := by push_cast; omega
    rw [h2, if_pos h]
    rfl
  · have h2 : g.turn % ((2 : Nat) : Int) - 1 = -1 := by push_cast; omega
    rw [h2, if_neg h]
    rfl

theorem count_filter_set {arr : List String} {n : Nat} {v : String}
    (hn : n < arr.length) (he : arr.getD n "" = " ") (hv : v ≠ " ") :
    ((arr.set n v).filter (fun c => c != " ")).length
      = (arr.filter (fun c => c != " ")).length + 1 := by
  induction arr generalizing n with
  | nil => simp at hn
  | cons a as ih =>
    cases n with
    | zero =>
      have ha : a = " " := he
      subst ha
      simp [List.filter_cons, hv]
    | succ m =>
      have hm : m < as.length := by simpa using hn
      have he' : as.getD m "" = " " := he
      show ((a :: as.set m v).filter (fun c => c != " ")).length
          = ((a :: as).filter (fun c => c != " ")).length + 1
      by_cases hae : (a != " ") = true
      · simp only [List.filter_cons, hae, if_pos trivial]
        simp [ih hm he']
      · have hae' : (a != " ") = false := by simpa using hae
        simp only [List.filter_cons, hae']
        simp [ih hm he']

theorem is_array_full_false_of_empty {g : Game} {n : Nat}
    (hn : n < g.game_array.length) (he : g.game_array.getD n "" = " ") :
    is_array_full g = false := by
  unfold is_array_full
  rw [List.all_eq_false]
  refine ⟨" ", ?_, by simp⟩
  rw [List.getD_eq_getElem _ _ hn] at he
  exact he ▸ List.getElem_mem hn

theorem winners_step {sizeN : Nat} {arr : List String} {n : Nat} {cs os : String}
    (hlt : n < arr.length) (hemp : arr.getD n "" = " ")
    (hcs_ne : cs ≠ " ") (hos_ne : os ≠ " ") (hne : cs ≠ os)
    (hnotboth : ¬(is_winning_move sizeN arr cs = true ∧ is_winning_move sizeN arr os = true))
    (hwcur : (is_winning_move sizeN arr cs = true ∨ is_winning_move sizeN arr os = true) →
      is_winning_move sizeN arr cs = true) :
    is_winning_move sizeN (arr.set n cs) os = is_winning_move sizeN arr os ∧
    ¬(is_winning_move sizeN (arr.set n cs) cs = true ∧
      is_winning_move sizeN (arr.set n cs) os = true) ∧
    ((is_winning_move sizeN (arr.set n cs) cs = true ∨
      is_winning_move sizeN (arr.set n cs) os = true) →
      is_winning_move sizeN (arr.set n cs) cs = true) := by
  have hos_eq : is_winning_move sizeN (arr.set n cs) os = is_winning_move sizeN arr os :=
    is_winning_move_set_other hlt hemp hos_ne hne
  refine ⟨hos_eq, ?_, ?_⟩
  · rintro ⟨hc, ho⟩
    rw [hos_eq] at ho
    exact hnotboth ⟨hwcur (Or.inr ho), ho⟩
  · rintro (hc | ho)
    · exact hc
    · rw [hos_eq] at ho
      exact is_winning_move_set_of_win hemp hcs_ne (hwcur (Or.inr ho))

theorem current_player_symbol {g : Game} (hp : g.players = [playerX, playerO])
    (hnum : g.num_players = 2) : (current_player g).symbol = cur_sym g.turn := by
  rw [current_player_eq hp hnum]
  unfold cur_sym
  by_cases h : g.turn % 2 = 1
  · rw [if_pos h, if_pos h]
    rfl
  · rw [if_neg h, if_neg h]
    rfl

theorem cur_sym_ne_blank (t : Int) : cur_sym t ≠ " " := by
  unfold cur_sym
  by_cases h : t % 2 = 1 <;> simp [h]

theorem opp_sym_ne_blank (t : Int) : opp_sym t ≠ " " := by
  unfold opp_sym
  by_cases h : t % 2 = 1 <;> simp [h]

theorem cur_sym_ne_opp (t : Int) : cur_sym t ≠ opp_sym t := by
  unfold cur_sym opp_sym
  by_cases h : t % 2 = 1 <;> simp [h]

theorem cur_sym_succ (t : Int) : cur_sym (t + 1) = opp_sym t := by
  unfold cur_sym opp_sym
  by_cases h : t % 2 = 1
  · have h2 : ¬(t + 1) % 2 = 1 := by omega
    rw [if_neg h2, if_pos h]
  · have h2 : (t + 1) % 2 = 1 := by omega
    rw [if_pos h2, if_neg h]

theorem opp_sym_succ (t : Int) : opp_sym (t + 1) = cur_sym t := by
  unfold cur_sym opp_sym
  by_cases h : t % 2 = 1
  · have h2 : ¬(t + 1) % 2 = 1 := by omega
    rw [if_neg h2, if_pos h]
  · have h2 : (t + 1) % 2 = 1 := by omega
    rw [if_pos h2, if_neg h]

theorem inv_step {g : Game} {pos : Int} {b : Bool} {g' : Game}
    (hinv : GameInv g) (h : make_move g pos = Except.ok (b, g')) : GameInv g' := by
  obtain ⟨hsz, hp, hnum, hlen, hturn, hocc, hnotboth, hwcur⟩ := hinv
  obtain ⟨n, hidx, hlt, hemp, hcase⟩ := make_move_ok h
  have hcys : (current_player g).symbol = cur_sym g.turn := current_player_symbol hp hnum
  rw [hcys] at hcase
  have hcs_ne := cur_sym_ne_blank g.turn
  have hos_ne := opp_sym_ne_blank g.turn
  have hne := cur_sym_ne_opp g.turn
  obtain ⟨hos_eq, hnotboth', hwcur'⟩ :=
    winners_step hlt hemp hcs_ne hos_ne hne hnotboth hwcur
  have hfull : is_array_full g = false := is_array_full_false_of_empty hlt hemp
  have hoccA : ((g.game_array.set n (cur_sym g.turn)).filter (fun c => c != " ")).length
      = (g.game_array.filter (fun c => c != " ")).length + 1 :=
    count_filter_set hlt hemp hcs_ne
  rcases hcase with ⟨hend, hb, rfl⟩ | ⟨hend, hb, rfl⟩
  · -- the move ended the game: the turn counter is unchanged
    refine ⟨hsz, hp, hnum, by simp [hlen], hturn, ?_, hnotboth', hwcur'⟩
    intro hend'
    exact Bool.noConfusion (hend.symm.trans hend')
  · -- the move did not end the game: the turn counter advances
    have hend2 : (is_winning_move g.size (g.game_array.set n (cur_sym g.turn))
        (current_player g).symbol
        || is_array_full { g with game_array := g.game_array.set n (cur_sym g.turn) }) = false :=
      hend
    rw [hcys, Bool.or_eq_false_iff] at hend2
    have hnw_cs := hend2.1
    have hnw_os : is_winning_move g.size (g.game_array.set n (cur_sym g.turn))
        (opp_sym g.turn) = false := by
      cases hv : is_winning_move g.size (g.game_array.set n (cur_sym g.turn))
          (opp_sym g.turn) with
      | false => rfl
      | true =>
        rw [hos_eq] at hv
        have hpres : is_winning_move g.size (g.game_array.set n (cur_sym g.turn))
            (cur_sym g.turn) = true :=
          is_winning_move_set_of_win hemp hcs_ne (hwcur (Or.inr hv))
        exact Bool.noConfusion (hpres.symm.trans hnw_cs)
    have hnw_cs_old : is_winning_move g.size g.game_array (cur_sym g.turn) = false := by
      cases hv : is_winning_move g.size g.game_array (cur_sym g.turn) with
      | false => rfl
      | true =>
        have hpres : is_winning_move g.size (g.game_array.set n (cur_sym g.turn))
            (cur_sym g.turn) = true :=
          is_winning_move_set_of_win hemp hcs_ne hv
        exact Bool.noConfusion (hpres.symm.trans hnw_cs)
    have hend_old : is_end_of_game g = false := by
      have hgoal : (is_winning_move g.size g.game_array (current_player g).symbol
          || is_array_full g) = false := by
        rw [hcys, Bool.or_eq_false_iff]
        exact ⟨hnw_cs_old, hfull⟩
      exact hgoal
    have hocc_old := hocc hend_old
    refine ⟨hsz, hp, hnum, by simp [hlen], ?_, ?_, ?_, ?_⟩
    · show (1 : Int) ≤ g.turn + 1
      omega
    · intro _
      show ((((g.game_array.set n (cur_sym g.turn)).filter (fun c => c != " ")).length : Int))
          = (g.turn + 1) - 1
      rw [hoccA]
      unfold occupied_count at hocc_old
      push_cast
      omega
    · show ¬(is_winning_move g.size (g.game_array.set n (cur_sym g.turn))
          (cur_sym (g.turn + 1)) = true ∧
        is_winning_move g.size (g.game_array.set n (cur_sym g.turn))
          (opp_sym (g.turn + 1)) = true)
      rw [cur_sym_succ, opp_sym_succ]
      rintro ⟨hc, _⟩
      exact Bool.noConfusion (hnw_os.symm.trans hc)
    · show (is_winning_move g.size (g.game_array.set n (cur_sym g.turn))
          (cur_sym (g.turn + 1)) = true ∨
        is_winning_move g.size (g.game_array.set n (cur_sym g.turn))
          (opp_sym (g.turn + 1)) = true) →
        is_winning_move g.size (g.game_array.set n (cur_sym g.turn))
          (cur_sym (g.turn + 1)) = true
      rw [cur_sym_succ, opp_sym_succ]
      rintro (hc | ho)
      · exact hc
      · exact Bool.noConfusion (hnw_cs.symm.trans ho)

theorem reachable_inv {g : Game} (h : Reachable g) : GameInv g := by
  induction h with
  | init => unfold GameInv; decide
  | step g pos b g' hr hm ih => exact inv_step ih hm

theorem cur_opp_cases (t : Int) :
    (cur_sym t = "X" ∧ opp_sym t = "O") ∨ (cur_sym t = "O" ∧ opp_sym t = "X") := by
  unfold cur_sym opp_sym
  by_cases h : t % 2 = 1
  · rw [if_pos h, if_pos h]
    exact Or.inl ⟨rfl, rfl⟩
  · rw [if_neg h, if_neg h]
    exact Or.inr ⟨rfl, rfl⟩

set_option maxRecDepth 10000

/-- Claim C1 (amended): on the size-3 board [O,O,_, _,X,_, X,_,_] with O to
move, best_move returns index 2, the move completing the O,O,_ row; index 2
is the first empty index and scores the maximal value.  The general clause
of the claim (the engine always prefers an immediately winning move over
any deeper continuation) is refuted by claim_C1_counterexample. -/
theorem claim_C1 : best_move exampleBoardO = some 2 := by decide

/-- Claim C1 counterexample: on doubleThreatBoard (O to move, holding the
double threat 0,1,4 over cells 7 and 8), cells 7 and 8 are immediately
winning moves for the current player, cell 5 is not, yet best_move returns
5 - the earlier empty index whose deeper continuation already scores the
maximal value, preferred over both immediate wins. -/
theorem claim_C1_counterexample :
    best_move doubleThreatBoard = some 5 ∧
    (5 ∈ get_empty_indices doubleThreatBoard.game_array ∧
     7 ∈ get_empty_indices doubleThreatBoard.game_array) ∧
    is_winning_move 3
      (doubleThreatBoard.game_array.set 7 (current_player doubleThreatBoard).symbol)
      (current_player doubleThreatBoard).symbol = true ∧
    is_winning_move 3
      (doubleThreatBoard.game_array.set 5 (current_player doubleThreatBoard).symbol)
      (current_player doubleThreatBoard).symbol = false := by decide

/-- Claim C2: calling best_move twice in succession on the same unmodified
non-terminal board returns the same index both times, and the caller board
(cells and turn counter) is unchanged after each call: the source
deep-copies the game and mutates only the copy, which the embedding
best_move_run reflects by returning the caller state alongside the
result. -/
theorem claim_C2 (g : Game) (_hnt : is_end_of_game g = false) :
    (best_move_run g).2 = g ∧
    (best_move_run ((best_move_run g).2)).1 = (best_move_run g).1 ∧
    (best_move_run ((best_move_run g).2)).2 = g :=
  ⟨rfl, rfl, rfl⟩

/-- Claim C2 witness: the fresh board is non-terminal and the C2 theorem
applies to it. -/
theorem claim_C2_witness :
    is_end_of_game init_game = false ∧
    ((best_move_run init_game).2 = init_game ∧
     (best_move_run ((best_move_run init_game).2)).1 = (best_move_run init_game).1 ∧
     (best_move_run ((best_move_run init_game).2)).2 = init_game) :=
  ⟨by decide, claim_C2 init_game (by decide)⟩

/-- Claim C3 (amended): for every state reachable by accepted make_move
calls from a fresh board, at most one of the two players has a winning
pattern; and the occupied-cell count equals the turn counter minus one
WHILE the game has not ended (a game-ending accepted move increments the
occupied count but not the turn counter, so the original unconditional
equation fails - see claim_C3_counterexample). -/
theorem claim_C3_amended (g : Game) (hr : Reachable g) :
    (is_end_of_game g = false → (occupied_count g : Int) = g.turn - 1) ∧
    ¬(is_winning_move g.size g.game_array "X" = true ∧
      is_winning_move g.size g.game_array "O" = true) := by
  obtain ⟨hsz, hp, hnum, hlen, hturn, hocc, hnotboth, hwcur⟩ := reachable_inv hr
  refine ⟨hocc, ?_⟩
  rintro ⟨hx, ho⟩
  rcases cur_opp_cases g.turn with ⟨hc, hop⟩ | ⟨hc, hop⟩
  · rw [← hc] at hx
    rw [← hop] at ho
    exact hnotboth ⟨hx, ho⟩
  · rw [← hc] at ho
    rw [← hop] at hx
    exact hnotboth ⟨ho, hx⟩

/-- Claim C3 witness: the amended claim applied to the fresh board, whose
non-terminality discharges the occupancy implication. -/
theorem claim_C3_witness :
    (occupied_count init_game : Int) = init_game.turn - 1 ∧
    ¬(is_winning_move init_game.size init_game.game_array "X" = true ∧
      is_winning_move init_game.size init_game.game_array "O" = true) := by
  obtain ⟨h1, h2⟩ := claim_C3_amended init_game Reachable.init
  exact ⟨h1 (by decide), h2⟩

/-- Claim C3 counterexample: the accepted move sequence 0,4,1,5,2 from the
fresh board reaches a state with five occupied cells and turn counter 5,
violating occupied = turn - 1: the final winning move of X returned true
without incrementing the turn counter. -/
theorem claim_C3_counterexample :
    Reachable winSequenceEnd ∧
    ¬((occupied_count winSequenceEnd : Int) = winSequenceEnd.turn - 1) := by
  constructor
  · have h1 : make_move init_game 0 = Except.ok (false,
        ⟨3, [playerX, playerO], ["X", " ", " ", " ", " ", " ", " ", " ", " "], 2, 2⟩) := by
      decide
    have h2 : make_move
        ⟨3, [playerX, playerO], ["X", " ", " ", " ", " ", " ", " ", " ", " "], 2, 2⟩ 4
        = Except.ok (false,
        ⟨3, [playerX, playerO], ["X", " ", " ", " ", "O", " ", " ", " ", " "], 2, 3⟩) := by
      decide
    have h3 : make_move
        ⟨3, [playerX, playerO], ["X", " ", " ", " ", "O", " ", " ", " ", " "], 2, 3⟩ 1
        = Except.ok (false,
        ⟨3, [playerX, playerO], ["X", "X", " ", " ", "O", " ", " ", " ", " "], 2, 4⟩) := by
      decide
    have h4 : make_move
        ⟨3, [playerX, playerO], ["X", "X", " ", " ", "O", " ", " ", " ", " "], 2, 4⟩ 5
        = Except.ok (false,
        ⟨3, [playerX, playerO], ["X", "X", " ", " ", "O", "O", " ", " ", " "], 2, 5⟩) := by
      decide
    have h5 : make_move
        ⟨3, [playerX, playerO], ["X", "X", " ", " ", "O", "O", " ", " ", " "], 2, 5⟩ 2
        = Except.ok (true, winSequenceEnd) := by
      decide
    exact Reachable.step _ _ _ _
      (Reachable.step _ _ _ _
        (Reachable.step _ _ _ _
          (Reachable.step _ _ _ _
            (Reachable.step _ _ _ _ Reachable.init h1) h2) h3) h4) h5
  · decide

/-- Claim C4 (amended): get_winner returns some(current_player) whenever
either player has a winning pattern - the source returns the CURRENT
player, not the player found winning - and none when neither does.  On
states reachable through make_move the two coincide, because a winning
move leaves the turn counter unchanged, so the winner is the current
player; for arbitrary field-constructed states they differ
(claim_C4_counterexample). -/
theorem claim_C4_amended (g : Game) (hp : g.players = [playerX, playerO])
    (hnum : g.num_players = 2) :
    (get_winner g =
      if is_winning_move g.size g.game_array "X" = true ∨
         is_winning_move g.size g.game_array "O" = true
      then some (current_player g) else none) ∧
    (Reachable g → ∀ p : Player, get_winner g = some p →
      is_winning_move g.size g.game_array p.symbol = true) := by
  have hpart1 : get_winner g =
      if is_winning_move g.size g.game_array "X" = true ∨
         is_winning_move g.size g.game_array "O" = true
      then some (current_player g) else none := by
    unfold get_winner
    rw [hp]
    simp only [List.any_cons, List.any_nil, Bool.or_false]
    by_cases hX : is_winning_move g.size g.game_array "X" = true
    · rw [if_pos (by rw [show playerX.symbol = "X" from rfl, hX]; simp), if_pos (Or.inl hX)]
    · by_cases hO : is_winning_move g.size g.game_array "O" = true
      · rw [if_pos (by rw [show playerO.symbol = "O" from rfl, hO]; simp),
          if_pos (Or.inr hO)]
      · have hbX : is_winning_move g.size g.game_array playerX.symbol = false := by
          rw [show playerX.symbol = "X" from rfl]
          exact Bool.not_eq_true _ |>.mp hX
        have hbO : is_winning_move g.size g.game_array playerO.symbol = false := by
          rw [show playerO.symbol = "O" from rfl]
          exact Bool.not_eq_true _ |>.mp hO
        rw [if_neg (by rw [hbX, hbO]; simp), if_neg (by rintro (h | h) <;> simp_all)]
  refine ⟨hpart1, ?_⟩
  intro hr p hgw
  obtain ⟨hsz, hp2, hnum2, hlen, hturn, hocc, hnotboth, hwcur⟩ := reachable_inv hr
  rw [hpart1] at hgw
  by_cases hwin : is_winning_move g.size g.game_array "X" = true ∨
      is_winning_move g.size g.game_array "O" = true
  · rw [if_pos hwin] at hgw
    have hpcur : p = current_player g := by
      injection hgw with h'
      exact h'.symm
    have hcys : (current_player g).symbol = cur_sym g.turn := current_player_symbol hp hnum
    rw [hpcur, hcys]
    apply hwcur
    rcases cur_opp_cases g.turn with ⟨hc, hop⟩ | ⟨hc, hop⟩
    · rw [hc, hop]
      exact hwin
    · rw [hc, hop]
      exact hwin.symm
  · rw [if_neg hwin] at hgw
    exact Option.noConfusion hgw

/-- Claim C4 witness: on the reachable board where X just completed the
top row, get_winner returns player X, via the amended theorem. -/
theorem claim_C4_witness : get_winner winSequenceEnd = some playerX := by
  have h := (claim_C4_amended winSequenceEnd rfl rfl).1
  rw [h]
  rw [if_pos (Or.inl (by decide))]
  decide

/-- Claim C4 counterexample: on staleTurnBoard exactly one player (X)
satisfies has_winner, yet get_winner returns player O, the current player
of the even turn counter - refuting "returns that winning player
regardless of which player is the current player". -/
theorem claim_C4_counterexample :
    get_winner staleTurnBoard = some playerO ∧
    is_winning_move staleTurnBoard.size staleTurnBoard.game_array playerX.symbol = true ∧
    is_winning_move staleTurnBoard.size staleTurnBoard.game_array playerO.symbol = false := by
  decide

/-- Claim C5 (amended): is_end_of_game is true iff the CURRENT player has
a winning pattern or the board is full; a completed pattern of the
non-current player alone does not end the game
(claim_C5_counterexample). -/
theorem claim_C5_amended (g : Game) :
    is_end_of_game g = true ↔
      (is_winning_move g.size g.game_array (current_player g).symbol = true ∨
       is_array_full g = true) := by
  unfold is_end_of_game
  simp

/-- Claim C5 counterexample: on staleTurnBoard player X has a winning
pattern and the board is not full, yet is_end_of_game is false because the
turn counter makes O the current player - refuting the claimed
equivalence with "either player wins or the board is full". -/
theorem claim_C5_counterexample :
    is_end_of_game staleTurnBoard = false ∧
    is_winning_move staleTurnBoard.size staleTurnBoard.game_array "X" = true ∧
    is_array_full staleTurnBoard = false := by decide

/-- Claim C6 (amended): indices at or above the cell count fail with
ValueError in is_position_taken (and hence in make_move); indices below
the negated cell count fail with IndexError; but negative indices from
-(cell count) to -1 are accepted and alias cell (count + index) by Python
negative indexing, which is read (and, for make_move, written). -/
theorem claim_C6_amended (g : Game) (pos : Int) :
    ((g.game_array.length : Int) ≤ pos →
      is_position_taken g pos = Except.error "ValueError" ∧
      make_move g pos = Except.error "ValueError") ∧
    (pos < -(g.game_array.length : Int) →
      is_position_taken g pos = Except.error "IndexError" ∧
      make_move g pos = Except.error "IndexError") ∧
    (-(g.game_array.length : Int) ≤ pos → pos < 0 →
      is_position_taken g pos =
        Except.ok (g.game_array.getD ((g.game_array.length : Int) + pos).toNat "" != " ")) := by
  refine ⟨?_, ?_, ?_⟩
  · intro hge
    have h1 : is_position_taken g pos = Except.error "ValueError" := by
      unfold is_position_taken
      rw [if_pos hge]
    refine ⟨h1, ?_⟩
    unfold make_move
    rw [h1]
  · intro hlt
    have hne : ¬((g.game_array.length : Int) ≤ pos) := by omega
    have h1 : is_position_taken g pos = Except.error "IndexError" := by
      unfold is_position_taken
      rw [if_neg hne]
      have h2 : pyIdx pos g.game_array.length = none := by
        unfold pyIdx
        rw [if_neg (by omega), if_neg (by omega)]
      rw [h2]
    refine ⟨h1, ?_⟩
    unfold make_move
    rw [h1]
  · intro h1 h2
    have hne : ¬((g.game_array.length : Int) ≤ pos) := by omega
    unfold is_position_taken
    rw [if_neg hne]
    have h3 : pyIdx pos g.game_array.length
        = some ((g.game_array.length : Int) + pos).toNat := by
      unfold pyIdx
      rw [if_neg (by omega), if_pos h1]
    rw [h3]

/-- Claim C6 witness: index -2 on the fresh 9-cell board is accepted and
reads cell 7, via the amended theorem. -/
theorem claim_C6_witness : is_position_taken init_game (-2) = Except.ok false := by
  have h := (claim_C6_amended init_game (-2)).2.2 (by decide) (by decide)
  rw [h]
  decide

/-- Claim C6 counterexample: is_position_taken on index -1 of the fresh
board returns ok false instead of failing, and make_move on -1 succeeds
and writes cell 8 - refuting "every negative index fails with an
index-range error rather than reading or writing any cell". -/
theorem claim_C6_counterexample :
    is_position_taken init_game (-1) = Except.ok false ∧
    make_move init_game (-1) = Except.ok (false,
      { init_game with
          game_array := [" ", " ", " ", " ", " ", " ", " ", " ", "X"], turn := 2 }) := by
  decide

/-- Claim C7: for every in-range index whose cell is already non-empty,
make_move raises the MoveException and, raising before any mutation,
leaves the entire board state unchanged (the embedding returns no
successor state on error, exactly as the source raises before its first
write). -/
theorem claim_C7 (g : Game) (pos : Int) (h0 : 0 ≤ pos)
    (h1 : pos < (g.game_array.length : Int))
    (h2 : g.game_array.getD pos.toNat "" ≠ " ") :
    make_move g pos = Except.error "MoveException: Position already taken" := by
  have htk : is_position_taken g pos = Except.ok true := by
    unfold is_position_taken
    rw [if_neg (by omega)]
    have h3 : pyIdx pos g.game_array.length = some pos.toNat := by
      unfold pyIdx
      rw [if_pos h0, if_pos h1]
    rw [h3]
    show Except.ok (g.game_array.getD pos.toNat "" != " ") = Except.ok true
    have hb : (g.game_array.getD pos.toNat "" != " ") = true := bne_iff_ne.mpr h2
    rw [hb]
  unfold make_move
  rw [htk]

/-- Claim C7 witness: moving onto the occupied cell 0 raises the
MoveException. -/
theorem claim_C7_witness :
    make_move occupiedBoard 0 = Except.error "MoveException: Position already taken" :=
  claim_C7 occupiedBoard 0 (by decide) (by decide) (by decide)

/-- Claim C8: for every N at least 2, create_winning_patterns returns
exactly 2N + 2 patterns, each of length N with pairwise-distinct indices
inside [0, N^2); and the size-3 pattern list is the stated literal in that
exact order. -/
theorem claim_C8 (N : Nat) (hN : 2 ≤ N) :
    ((create_winning_patterns N).length = 2 * N + 2 ∧
     ∀ p ∈ create_winning_patterns N,
       p.length = N ∧ p.Nodup ∧ ∀ x ∈ p, x < N ^ 2) ∧
    create_winning_patterns 3 =
      [[0, 1, 2], [0, 3, 6], [3, 4, 5], [1, 4, 7], [6, 7, 8], [2, 5, 8], [0, 4, 8], [2, 4, 6]] :=
  ⟨⟨create_winning_patterns_length N, fun p hp => pattern_props hN p hp⟩, by decide⟩

/-- Claim C8 witness: instantiation at N = 4. -/
theorem claim_C8_witness :
    2 ≤ 4 ∧ (create_winning_patterns 4).length = 2 * 4 + 2 ∧
    create_winning_patterns 3 =
      [[0, 1, 2], [0, 3, 6], [3, 4, 5], [1, 4, 7], [6, 7, 8], [2, 5, 8], [0, 4, 8], [2, 4, 6]] := by
  have h := claim_C8 4 (by decide)
  exact ⟨by decide, h.1.1, h.2⟩

/-- Claim C9 (amended): construction with side length size always
succeeds, for every size, yielding size^2 cells all Empty and turn
counter 1; the source performs no validation of size, so sizes below 2 do
not fail (claim_C9_counterexample). -/
theorem claim_C9_amended (size num_players : Nat) :
    (play_Game_init size num_players).game_array = List.replicate (size ^ 2) " " ∧
    (play_Game_init size num_players).game_array.length = size ^ 2 ∧
    (∀ c ∈ (play_Game_init size num_players).game_array, c = " ") ∧
    (play_Game_init size num_players).turn = 1 := by
  refine ⟨rfl, by simp [play_Game_init], ?_, rfl⟩
  intro c hc
  exact List.eq_of_mem_replicate hc

/-- Claim C9 counterexample: construction at size 1 (below 2) does not
fail - the constructor of play.py has no failure path - and yields the
well-formed one-cell board with turn 1, refuting "construction fails with
ConfigError for every size < 2". -/
theorem claim_C9_counterexample :
    play_Game_init 1 2 =
      { size := 1, turn := 1, num_players := 2, game_array := [" "],
        winning_patterns := [[0], [0], [0], [0]],
        players := [{ name := "Player 1", symbol := "O" },
                    { name := "Player 2", symbol := "X" }] } := by decide

/-- Claim C10: for every in-range index, clear_spot blanks exactly that
cell, leaves every other cell unchanged, and unconditionally decrements
the turn counter by one, flipping the current player; the decrement does
not depend on whether the preceding placement incremented the counter. -/
theorem claim_C10 (g : Game) (pos : Int) (h0 : 0 ≤ pos)
    (h1 : pos < (g.game_array.length : Int)) :
    (clear_spot g pos).game_array.getD pos.toNat "" = " " ∧
    (clear_spot g pos).turn = g.turn - 1 ∧
    (∀ j : Nat, j ≠ pos.toNat →
      (clear_spot g pos).game_array.getD j "" = g.game_array.getD j "") ∧
    (g.players = [playerX, playerO] → g.num_players = 2 →
      current_player (clear_spot g pos) ≠ current_player g) := by
  have hidx : pyIdx pos g.game_array.length = some pos.toNat := by
    unfold pyIdx
    rw [if_pos h0, if_pos h1]
  have hset : (clear_spot g pos).game_array = g.game_array.set pos.toNat " " := by
    unfold clear_spot pySet
    rw [hidx]
  refine ⟨?_, rfl, ?_, ?_⟩
  · rw [hset]
    exact getD_set_self _ _ _ _ (by omega)
  · intro j hj
    rw [hset]
    exact getD_set_ne _ _ _ _ _ (fun e => hj e.symm)
  · intro hp hnum
    have hcur : current_player g = if g.turn % 2 = 1 then playerX else playerO :=
      current_player_eq hp hnum
    have hp' : (clear_spot g pos).players = [playerX, playerO] := hp
    have hnum' : (clear_spot g pos).num_players = 2 := hnum
    have hturn' : (clear_spot g pos).turn = g.turn - 1 := rfl
    have hcur' : current_player (clear_spot g pos)
        = if (g.turn - 1) % 2 = 1 then playerX else playerO := by
      rw [current_player_eq hp' hnum', hturn']
    rw [hcur, hcur']
    by_cases hpar : g.turn % 2 = 1
    · rw [if_pos hpar, if_neg (by omega : ¬((g.turn - 1) % 2 = 1))]
      decide
    · rw [if_neg hpar, if_pos (by omega : (g.turn - 1) % 2 = 1)]
      decide

/-- Claim C10 witness: clearing cell 0 of a one-move board blanks it,
drops the turn counter from 2 to 1 and flips the current player back. -/
theorem claim_C10_witness :
    (clear_spot occupiedBoard 0).game_array.getD 0 "" = " " ∧
    (clear_spot occupiedBoard 0).turn = occupiedBoard.turn - 1 ∧
    (clear_spot occupiedBoard 0).game_array.getD 5 ""
      = occupiedBoard.game_array.getD 5 "" ∧
    current_player (clear_spot occupiedBoard 0) ≠ current_player occupiedBoard := by
  obtain ⟨a, b, c, d⟩ := claim_C10 occupiedBoard 0 (by decide) (by decide)
  exact ⟨a, b, c 5 (by decide), d rfl rfl⟩

